import Mathlib

/-!
Verification of the transcript-parsing, seek-mapping, search-filter, proxy
and UI-state logic of the Audio-Transcriber app.

Strings are modelled as `List Char`.  The parser's timestamp regular
expression `\[(\d{1,2}:\d{2}(?::\d{2})?)\]\s*(.*)` is embedded as an
explicit backtracking matcher (`matchAfterBracket`, `findMatch`) that
mirrors the JavaScript engine's semantics: leftmost match wins, the
greedy `\d{1,2}` tries two digits before one, and the optional seconds
group is tried before being skipped.
-/

namespace AudioTranscriber

/-- ASCII whitespace, the fragment of the JS `\s` class (and of
`String.prototype.trim`) that can occur in the strings handled here. -/
def isJsSpace (c : Char) : Bool :=
  c == ' ' || c == '\t' || c == '\n' || c == '\r' || c == '\x0b' || c == '\x0c'

/-- JS `line.trim()`: strip whitespace from both ends. -/
def trimJs (l : List Char) : List Char :=
  ((l.dropWhile isJsSpace).reverse.dropWhile isJsSpace).reverse

/-- After the optional group's position: try `:\d{2}` followed by `]`
(the greedy optional group), else just `]`.  `ts` is the timestamp
captured so far; the returned pair is (captured timestamp, rest of the
line after `]`). -/
def matchCloseOnly (ts : List Char) (cs : List Char) : Option (List Char × List Char) :=
  match cs with
  | c :: rest => if c == ']' then some (ts, rest) else none
  | [] => none

/-- The optional `(?::\d{2})?` followed by `\]`: the greedy optional
branch is tried first, falling back to the bare closing bracket. -/
def matchOpt (ts : List Char) (cs : List Char) : Option (List Char × List Char) :=
  match cs with
  | c1 :: s1 :: s2 :: c2 :: rest =>
    if c1 == ':' && s1.isDigit && s2.isDigit && c2 == ']' then
      some (ts ++ [c1, s1, s2], rest)
    else matchCloseOnly ts cs
  | _ => matchCloseOnly ts cs

/-- The `\d{1,2}` group taking two digits, then `:\d{2}` and the tail. -/
def matchTwoDigit (cs : List Char) : Option (List Char × List Char) :=
  match cs with
  | d1 :: d2 :: c1 :: m1 :: m2 :: rest =>
    if d1.isDigit && d2.isDigit && c1 == ':' && m1.isDigit && m2.isDigit then
      matchOpt [d1, d2, c1, m1, m2] rest
    else none
  | _ => none

/-- The `\d{1,2}` group taking a single digit, then `:\d{2}` and the tail. -/
def matchOneDigit (cs : List Char) : Option (List Char × List Char) :=
  match cs with
  | d1 :: c1 :: m1 :: m2 :: rest =>
    if d1.isDigit && c1 == ':' && m1.isDigit && m2.isDigit then
      matchOpt [d1, c1, m1, m2] rest
    else none
  | _ => none

/-- Matching the regex body right after an opening `[`: greedy
`\d{1,2}` tries two digits first, backtracking to one. -/
def matchAfterBracket (cs : List Char) : Option (List Char × List Char) :=
  match matchTwoDigit cs with
  | some r => some r
  | none => matchOneDigit cs

/-- `line.match(timeRegex)`: scan left to right for the first position
where the (unanchored) regex matches; it can only match at a `[`. -/
def findMatch : List Char → Option (List Char × List Char)
  | [] => none
  | c :: rest =>
    if c == '[' then
      match matchAfterBracket rest with
      | some r => some r
      | none => findMatch rest
    else findMatch rest

/-- A JS LineTerminator, which `.` (without the `s` flag) does not
match.  ` `/` ` are line terminators too but lie outside the
character fragment handled here; after splitting on `\n` only `\r` can
actually occur inside a line. -/
def isLineTerminator (c : Char) : Bool :=
  c == '\n' || c == '\r'

/-- The result of `line.match(timeRegex)` projected to the two capture
groups: group 1 is the timestamp without brackets, group 2 is what the
greedy `(.*)` matches after the closing bracket and the greedy `\s*` —
the maximal run of non-LineTerminator characters, so the text is
truncated at the first carriage return. -/
def jsMatchLine (line : List Char) : Option (List Char × List Char) :=
  match findMatch line with
  | some (ts, rest) =>
    some (ts, (rest.dropWhile isJsSpace).takeWhile fun c => !isLineTerminator c)
  | none => none

/-- `type TranscriptionChunk = { time: string; text: string }`. -/
structure TranscriptionChunk where
  time : List Char
  text : List Char
deriving DecidableEq, Repr

/-- `chunks[chunks.length - 1].text += ' ' + line.trim()`. -/
def appendToLast : List TranscriptionChunk → List Char → List TranscriptionChunk
  | [], _ => []
  | [c], s => [⟨c.time, c.text ++ ' ' :: s⟩]
  | c :: c2 :: rest, s => c :: appendToLast (c2 :: rest) s

/-- The body of the parser's `for (const line of lines)` loop in
`handleTranscribe`. -/
def processLine (chunks : List TranscriptionChunk) (line : List Char) : List TranscriptionChunk :=
  match jsMatchLine line with
  | some (t, s) => chunks ++ [⟨t, s⟩]
  | none =>
    if (trimJs line).isEmpty then chunks
    else if chunks.isEmpty then chunks ++ [⟨"00:00".toList, trimJs line⟩]
    else appendToLast chunks (trimJs line)

/-- JS `text.split('\n')` (and `time.split(':')`): split on a separator
character, keeping empty pieces; splitting the empty string yields one
empty piece. -/
def splitOnCharAux (sep : Char) (acc : List Char) : List Char → List (List Char)
  | [] => [acc.reverse]
  | c :: rest =>
    if c == sep then acc.reverse :: splitOnCharAux sep [] rest
    else splitOnCharAux sep (c :: acc) rest

def splitOnChar (sep : Char) (l : List Char) : List (List Char) :=
  splitOnCharAux sep [] l

/-- The transcript parser of `handleTranscribe`: split the model output
on newlines and run the chunking loop. -/
def parseChunks (text : List Char) : List TranscriptionChunk :=
  (splitOnChar '\n' text).foldl processLine []

example : parseChunks ("[00:05] Hello\nworld".toList) =
    [⟨"00:05".toList, "Hello world".toList⟩] := by decide

example : parseChunks ("stray text\n[01:20] Next".toList) =
    [⟨"00:00".toList, "stray text".toList⟩, ⟨"01:20".toList, "Next".toList⟩] := by decide

example : parseChunks ("x [00:05] Hi ".toList) =
    [⟨"00:05".toList, "Hi ".toList⟩] := by decide

example : parseChunks ("[00:05] Hi\r\n[00:07] There\rX".toList) =
    [⟨"00:05".toList, "Hi".toList⟩, ⟨"00:07".toList, "There".toList⟩] := by decide

example : jsMatchLine ("[00:05] \r Hi".toList) =
    some ("00:05".toList, "Hi".toList) := by decide

/-!
Spec-side view of the line pattern, written from the specification's
words: a timestamp is `D{1,2}:D{2}` or `D{1,2}:D{2}:D{2}`.
-/

/-- A timestamp string of the shape `D{1,2}:D{2}` or `D{1,2}:D{2}:D{2}`,
stated by enumerating the four possible layouts. -/
def validTS (ts : List Char) : Bool :=
  match ts with
  | [a, c1, b, c] =>
    a.isDigit && c1 == ':' && b.isDigit && c.isDigit
  | [a, a2, c1, b, c] =>
    a.isDigit && a2.isDigit && c1 == ':' && b.isDigit && c.isDigit
  | [a, c1, b, c, c2, d, e] =>
    a.isDigit && c1 == ':' && b.isDigit && c.isDigit && c2 == ':' && d.isDigit && e.isDigit
  | [a, a2, c1, b, c, c2, d, e] =>
    a.isDigit && a2.isDigit && c1 == ':' && b.isDigit && c.isDigit && c2 == ':' && d.isDigit && e.isDigit
  | _ => false

/-- Spec-side: right after an opening `[`, does a timestamp of length
`n` followed by `]` begin here? -/
def tryShape (n : Nat) (cs : List Char) : Option (List Char × List Char) :=
  match cs.drop n with
  | c :: rest => if c == ']' && validTS (cs.take n) then some (cs.take n, rest) else none
  | [] => none

/-- Spec-side: one of the four timestamp layouts followed by `]`. -/
def bracketShapes (cs : List Char) : Option (List Char × List Char) :=
  match tryShape 4 cs with
  | some r => some r
  | none =>
    match tryShape 5 cs with
    | some r => some r
    | none =>
      match tryShape 7 cs with
      | some r => some r
      | none => tryShape 8 cs

/-- Spec-side: leftmost bracketed timestamp anywhere in the line. -/
def specScanTS : List Char → Option (List Char × List Char)
  | [] => none
  | c :: rest =>
    if c == '[' then
      match bracketShapes rest with
      | some r => some r
      | none => specScanTS rest
    else specScanTS rest

/-- Amended spec-side line view: a chunk is emitted iff the line
contains a bracketed timestamp anywhere; `time` is the leftmost such
timestamp without brackets, `text` is the remainder of the line after
the closing bracket with leading whitespace removed and truncated at
the first carriage return (other trailing whitespace retained, any
prefix before the bracket discarded). -/
def specLineEmitAmended (line : List Char) : Option (List Char × List Char) :=
  match specScanTS line with
  | some (ts, rest) =>
    some (ts, (rest.dropWhile isJsSpace).takeWhile fun c => !isLineTerminator c)
  | none => none

/-- The claim's original line pattern, from the spec's words: optional
leading whitespace, a bracketed timestamp, optional whitespace, then
the remainder; `time` is the timestamp without brackets, `text` the
remainder trimmed. -/
def specLineEmit (line : List Char) : Option (List Char × List Char) :=
  match line.dropWhile isJsSpace with
  | c :: rest =>
    if c == '[' then
      match bracketShapes rest with
      | some (ts, r) => some (ts, trimJs r)
      | none => none
    else none
  | [] => none

/-! Ground character facts used to evaluate the matchers on the four
timestamp layouts. -/

lemma colon_isDigit_false : (':' : Char).isDigit = false := by decide

lemma digit_beq_colon {c : Char} (h : c.isDigit = true) : (c == ':') = false := by
  cases hb : c == ':'
  · rfl
  · exfalso
    rw [beq_iff_eq] at hb
    subst hb
    exact absurd h (by decide)

lemma digit_beq_rbracket {c : Char} (h : c.isDigit = true) : (c == ']') = false := by
  cases hb : c == ']'
  · rfl
  · exfalso
    rw [beq_iff_eq] at hb
    subst hb
    exact absurd h (by decide)

lemma space_not_digit {c : Char} (h : isJsSpace c = true) : c.isDigit = false := by
  simp only [isJsSpace, Bool.or_eq_true, beq_iff_eq] at h
  rcases h with ((((rfl | rfl) | rfl) | rfl) | rfl) | rfl <;> decide

lemma space_beq_lbracket {c : Char} (h : isJsSpace c = true) : (c == '[') = false := by
  simp only [isJsSpace, Bool.or_eq_true, beq_iff_eq] at h
  rcases h with ((((rfl | rfl) | rfl) | rfl) | rfl) | rfl <;> decide

/-! Inversion lemmas: what a successful run of the regex matcher says
about the input. -/

lemma matchCloseOnly_eq_some {pre cs ts rest : List Char}
    (h : matchCloseOnly pre cs = some (ts, rest)) :
    cs = ']' :: rest ∧ ts = pre := by
  rcases cs with _ | ⟨c, tail⟩
  · simp [matchCloseOnly] at h
  · simp only [matchCloseOnly] at h
    by_cases hc : (c == ']') = true
    · rw [if_pos hc] at h
      simp only [Option.some_inj, Prod.mk.injEq] at h
      obtain ⟨rfl, rfl⟩ := h
      rw [beq_iff_eq] at hc
      exact ⟨by rw [hc], rfl⟩
    · rw [if_neg hc] at h
      simp at h

lemma matchOpt_eq_some {pre cs ts rest : List Char}
    (h : matchOpt pre cs = some (ts, rest)) :
    (∃ s1 s2, cs = ':' :: s1 :: s2 :: ']' :: rest ∧ s1.isDigit = true ∧ s2.isDigit = true ∧
      ts = pre ++ [':', s1, s2]) ∨
    (cs = ']' :: rest ∧ ts = pre) := by
  rcases cs with _ | ⟨c1, _ | ⟨s1, _ | ⟨s2, _ | ⟨c2, rest'⟩⟩⟩⟩
  · exact Or.inr (matchCloseOnly_eq_some h)
  · exact Or.inr (matchCloseOnly_eq_some h)
  · exact Or.inr (matchCloseOnly_eq_some h)
  · exact Or.inr (matchCloseOnly_eq_some h)
  · simp only [matchOpt] at h
    by_cases hcond : (c1 == ':' && s1.isDigit && s2.isDigit && c2 == ']') = true
    · rw [if_pos hcond] at h
      simp only [Bool.and_eq_true, beq_iff_eq, and_assoc] at hcond
      obtain ⟨hc1, hs1, hs2, hc2⟩ := hcond
      simp only [Option.some_inj, Prod.mk.injEq] at h
      obtain ⟨rfl, rfl⟩ := h
      exact Or.inl ⟨s1, s2, by rw [hc1, hc2], hs1, hs2, by rw [hc1]⟩
    · rw [if_neg hcond] at h
      exact Or.inr (matchCloseOnly_eq_some h)

lemma matchTwoDigit_eq_some {cs ts rest : List Char}
    (h : matchTwoDigit cs = some (ts, rest)) :
    cs = ts ++ ']' :: rest ∧ validTS ts = true := by
  rcases cs with _ | ⟨d1, _ | ⟨d2, _ | ⟨c1, _ | ⟨m1, _ | ⟨m2, rest'⟩⟩⟩⟩⟩ <;>
    simp only [matchTwoDigit] at h
  · exact absurd h (by simp)
  · exact absurd h (by simp)
  · exact absurd h (by simp)
  · exact absurd h (by simp)
  · exact absurd h (by simp)
  · by_cases hcond :
        (d1.isDigit && d2.isDigit && c1 == ':' && m1.isDigit && m2.isDigit) = true
    · rw [if_pos hcond] at h
      simp only [Bool.and_eq_true, beq_iff_eq, and_assoc] at hcond
      obtain ⟨h1, h2, hc, h3, h4⟩ := hcond
      rcases matchOpt_eq_some h with ⟨s1, s2, hrest, hs1, hs2, hts⟩ | ⟨hrest, hts⟩
      · subst hts hrest hc
        exact ⟨rfl, by simp [validTS, h1, h2, h3, h4, hs1, hs2]⟩
      · subst hts hrest hc
        exact ⟨rfl, by simp [validTS, h1, h2, h3, h4]⟩
    · rw [if_neg hcond] at h
      exact absurd h (by simp)

lemma matchOneDigit_eq_some {cs ts rest : List Char}
    (h : matchOneDigit cs = some (ts, rest)) :
    cs = ts ++ ']' :: rest ∧ validTS ts = true := by
  rcases cs with _ | ⟨d1, _ | ⟨c1, _ | ⟨m1, _ | ⟨m2, rest'⟩⟩⟩⟩ <;>
    simp only [matchOneDigit] at h
  · exact absurd h (by simp)
  · exact absurd h (by simp)
  · exact absurd h (by simp)
  · exact absurd h (by simp)
  · by_cases hcond : (d1.isDigit && c1 == ':' && m1.isDigit && m2.isDigit) = true
    · rw [if_pos hcond] at h
      simp only [Bool.and_eq_true, beq_iff_eq, and_assoc] at hcond
      obtain ⟨h1, hc, h3, h4⟩ := hcond
      rcases matchOpt_eq_some h with ⟨s1, s2, hrest, hs1, hs2, hts⟩ | ⟨hrest, hts⟩
      · subst hts hrest hc
        exact ⟨rfl, by simp [validTS, h1, h3, h4, hs1, hs2]⟩
      · subst hts hrest hc
        exact ⟨rfl, by simp [validTS, h1, h3, h4]⟩
    · rw [if_neg hcond] at h
      exact absurd h (by simp)

lemma matchAfterBracket_eq_some {cs ts rest : List Char}
    (h : matchAfterBracket cs = some (ts, rest)) :
    cs = ts ++ ']' :: rest ∧ validTS ts = true := by
  unfold matchAfterBracket at h
  cases h2 : matchTwoDigit cs with
  | some r =>
    rw [h2] at h
    simp only [Option.some_inj] at h
    subst h
    exact matchTwoDigit_eq_some h2
  | none =>
    rw [h2] at h
    exact matchOneDigit_eq_some h

/-- A `validTS` list has one of the four explicit layouts. -/
lemma validTS_shapes {ts : List Char} (h : validTS ts = true) :
    (∃ a b c, ts = [a, ':', b, c] ∧
      a.isDigit = true ∧ b.isDigit = true ∧ c.isDigit = true) ∨
    (∃ a a2 b c, ts = [a, a2, ':', b, c] ∧
      a.isDigit = true ∧ a2.isDigit = true ∧ b.isDigit = true ∧ c.isDigit = true) ∨
    (∃ a b c d e, ts = [a, ':', b, c, ':', d, e] ∧
      a.isDigit = true ∧ b.isDigit = true ∧ c.isDigit = true ∧
      d.isDigit = true ∧ e.isDigit = true) ∨
    (∃ a a2 b c d e, ts = [a, a2, ':', b, c, ':', d, e] ∧
      a.isDigit = true ∧ a2.isDigit = true ∧ b.isDigit = true ∧ c.isDigit = true ∧
      d.isDigit = true ∧ e.isDigit = true) := by
  rcases ts with _ | ⟨a, ts⟩
  · simp [validTS] at h
  rcases ts with _ | ⟨x2, ts⟩
  · simp [validTS] at h
  rcases ts with _ | ⟨x3, ts⟩
  · simp [validTS] at h
  rcases ts with _ | ⟨x4, ts⟩
  · simp [validTS] at h
  rcases ts with _ | ⟨x5, ts⟩
  · simp only [validTS, Bool.and_eq_true, beq_iff_eq, and_assoc] at h
    obtain ⟨h1, h2, h3, h4⟩ := h
    subst h2
    exact Or.inl ⟨a, x3, x4, rfl, h1, h3, h4⟩
  rcases ts with _ | ⟨x6, ts⟩
  · simp only [validTS, Bool.and_eq_true, beq_iff_eq, and_assoc] at h
    obtain ⟨h1, h2, h3, h4, h5⟩ := h
    subst h3
    exact Or.inr (Or.inl ⟨a, x2, x4, x5, rfl, h1, h2, h4, h5⟩)
  rcases ts with _ | ⟨x7, ts⟩
  · simp [validTS] at h
  rcases ts with _ | ⟨x8, ts⟩
  · simp only [validTS, Bool.and_eq_true, beq_iff_eq, and_assoc] at h
    obtain ⟨h1, h2, h3, h4, h5, h6, h7⟩ := h
    subst h2
    subst h5
    exact Or.inr (Or.inr (Or.inl ⟨a, x3, x4, x6, x7, rfl, h1, h3, h4, h6, h7⟩))
  rcases ts with _ | ⟨x9, ts⟩
  · simp only [validTS, Bool.and_eq_true, beq_iff_eq, and_assoc] at h
    obtain ⟨h1, h2, h3, h4, h5, h6, h7, h8⟩ := h
    subst h3
    subst h6
    exact Or.inr (Or.inr (Or.inr ⟨a, x2, x4, x5, x7, x8, rfl, h1, h2, h4, h5, h7, h8⟩))
  simp [validTS] at h

/-- After a matched timestamp, a bare `]` closes the match at once. -/
lemma matchOpt_rbracket (pre rest : List Char) :
    matchOpt pre (']' :: rest) = some (pre, rest) := by
  rcases rest with _ | ⟨a, _ | ⟨b, _ | ⟨c, tail⟩⟩⟩ <;>
    simp [matchOpt, matchCloseOnly]

/-- Completeness of the regex matcher: a valid timestamp followed by
`]` is matched, capturing exactly the timestamp. -/
lemma matchAfterBracket_complete {ts : List Char} (h : validTS ts = true)
    (rest : List Char) :
    matchAfterBracket (ts ++ ']' :: rest) = some (ts, rest) := by
  rcases validTS_shapes h with
      ⟨a, b, c, rfl, ha, hb, hc⟩ |
      ⟨a, a2, b, c, rfl, ha, ha2, hb, hc⟩ |
      ⟨a, b, c, d, e, rfl, ha, hb, hc, hd, he⟩ |
      ⟨a, a2, b, c, d, e, rfl, ha, ha2, hb, hc, hd, he⟩
  · simp [matchAfterBracket, matchTwoDigit, matchOneDigit, matchOpt_rbracket,
      ha, hb, hc, colon_isDigit_false]
  · simp [matchAfterBracket, matchTwoDigit, matchOpt_rbracket, ha, ha2, hb, hc]
  · simp [matchAfterBracket, matchTwoDigit, matchOneDigit, matchOpt, matchCloseOnly,
      ha, hb, hc, hd, he, colon_isDigit_false]
  · simp [matchAfterBracket, matchTwoDigit, matchOpt, matchCloseOnly,
      ha, ha2, hb, hc, hd, he]

lemma colon_beq_rbracket : ((':' : Char) == ']') = false := by decide

/-! The spec-side shape scanner agrees with the regex matcher. -/

lemma tryShape_eq_some {n : Nat} {cs ts rest : List Char}
    (h : tryShape n cs = some (ts, rest)) :
    cs = ts ++ ']' :: rest ∧ validTS ts = true := by
  unfold tryShape at h
  cases hd : List.drop n cs with
  | nil =>
    rw [hd] at h
    simp at h
  | cons c tail =>
    rw [hd] at h
    dsimp only at h
    by_cases hc : (c == ']' && validTS (cs.take n)) = true
    · rw [if_pos hc] at h
      simp only [Option.some_inj, Prod.mk.injEq] at h
      obtain ⟨rfl, rfl⟩ := h
      simp only [Bool.and_eq_true, beq_iff_eq] at hc
      obtain ⟨hc1, hv⟩ := hc
      refine ⟨?_, hv⟩
      conv_lhs => rw [← List.take_append_drop n cs]
      rw [hd, hc1]
    · rw [if_neg hc] at h
      simp at h

lemma tryShape_complete {ts : List Char} (h : validTS ts = true) (rest : List Char) :
    tryShape ts.length (ts ++ ']' :: rest) = some (ts, rest) := by
  unfold tryShape
  rw [List.drop_left, List.take_left]
  simp [h]

lemma bracketShapes_eq_some {cs ts rest : List Char}
    (h : bracketShapes cs = some (ts, rest)) :
    cs = ts ++ ']' :: rest ∧ validTS ts = true := by
  unfold bracketShapes at h
  cases h4 : tryShape 4 cs with
  | some r =>
    rw [h4] at h
    simp only [Option.some_inj] at h
    subst h
    exact tryShape_eq_some h4
  | none =>
    rw [h4] at h
    cases h5 : tryShape 5 cs with
    | some r =>
      rw [h5] at h
      simp only [Option.some_inj] at h
      subst h
      exact tryShape_eq_some h5
    | none =>
      rw [h5] at h
      cases h7 : tryShape 7 cs with
      | some r =>
        rw [h7] at h
        simp only [Option.some_inj] at h
        subst h
        exact tryShape_eq_some h7
      | none =>
        rw [h7] at h
        exact tryShape_eq_some h

lemma bracketShapes_complete {ts : List Char} (h : validTS ts = true)
    (rest : List Char) :
    bracketShapes (ts ++ ']' :: rest) = some (ts, rest) := by
  rcases validTS_shapes h with
      ⟨a, b, c, rfl, ha, hb, hc⟩ |
      ⟨a, a2, b, c, rfl, ha, ha2, hb, hc⟩ |
      ⟨a, b, c, d, e, rfl, ha, hb, hc, hd, he⟩ |
      ⟨a, a2, b, c, d, e, rfl, ha, ha2, hb, hc, hd, he⟩
  · have t4 : tryShape 4 ([a, ':', b, c] ++ ']' :: rest) = some ([a, ':', b, c], rest) :=
      tryShape_complete h rest
    simp only [List.cons_append, List.nil_append] at t4
    simp [bracketShapes, t4]
  · have t4 : tryShape 4 (a :: a2 :: ':' :: b :: c :: ']' :: rest) =
        if (c == ']' && validTS [a, a2, ':', b]) = true then
          some ([a, a2, ':', b], ']' :: rest)
        else none := rfl
    have t5 : tryShape 5 ([a, a2, ':', b, c] ++ ']' :: rest) =
        some ([a, a2, ':', b, c], rest) := tryShape_complete h rest
    simp only [List.cons_append, List.nil_append] at t5
    simp [bracketShapes, t4, t5, digit_beq_rbracket hc]
  · have t4 : tryShape 4 (a :: ':' :: b :: c :: ':' :: d :: e :: ']' :: rest) =
        if ((':' : Char) == ']' && validTS [a, ':', b, c]) = true then
          some ([a, ':', b, c], d :: e :: ']' :: rest)
        else none := rfl
    have t5 : tryShape 5 (a :: ':' :: b :: c :: ':' :: d :: e :: ']' :: rest) =
        if (d == ']' && validTS [a, ':', b, c, ':']) = true then
          some ([a, ':', b, c, ':'], e :: ']' :: rest)
        else none := rfl
    have t7 : tryShape 7 ([a, ':', b, c, ':', d, e] ++ ']' :: rest) =
        some ([a, ':', b, c, ':', d, e], rest) := tryShape_complete h rest
    simp only [List.cons_append, List.nil_append] at t7
    simp [bracketShapes, t4, t5, t7, colon_beq_rbracket, digit_beq_rbracket hd]
  · have t4 : tryShape 4 (a :: a2 :: ':' :: b :: c :: ':' :: d :: e :: ']' :: rest) =
        if (c == ']' && validTS [a, a2, ':', b]) = true then
          some ([a, a2, ':', b], ':' :: d :: e :: ']' :: rest)
        else none := rfl
    have t5 : tryShape 5 (a :: a2 :: ':' :: b :: c :: ':' :: d :: e :: ']' :: rest) =
        if ((':' : Char) == ']' && validTS [a, a2, ':', b, c]) = true then
          some ([a, a2, ':', b, c], d :: e :: ']' :: rest)
        else none := rfl
    have t7 : tryShape 7 (a :: a2 :: ':' :: b :: c :: ':' :: d :: e :: ']' :: rest) =
        if (e == ']' && validTS [a, a2, ':', b, c, ':', d]) = true then
          some ([a, a2, ':', b, c, ':', d], ']' :: rest)
        else none := rfl
    have t8 : tryShape 8 ([a, a2, ':', b, c, ':', d, e] ++ ']' :: rest) =
        some ([a, a2, ':', b, c, ':', d, e], rest) := tryShape_complete h rest
    simp only [List.cons_append, List.nil_append] at t8
    simp [bracketShapes, t4, t5, t7, t8, colon_beq_rbracket,
      digit_beq_rbracket hc, digit_beq_rbracket he]

/-- The backtracking regex matcher and the spec-side shape scan agree
right after an opening bracket. -/
lemma matchAfterBracket_eq_bracketShapes (cs : List Char) :
    matchAfterBracket cs = bracketShapes cs := by
  cases h1 : matchAfterBracket cs with
  | some r =>
    obtain ⟨ts, rest⟩ := r
    obtain ⟨hdec, hv⟩ := matchAfterBracket_eq_some h1
    rw [hdec]
    exact (bracketShapes_complete hv rest).symm
  | none =>
    cases h2 : bracketShapes cs with
    | none => rfl
    | some r =>
      obtain ⟨ts, rest⟩ := r
      obtain ⟨hdec, hv⟩ := bracketShapes_eq_some h2
      rw [hdec] at h1
      rw [matchAfterBracket_complete hv rest] at h1
      exact absurd h1 (by simp)

/-- Scanning for the regex's leftmost match and scanning for the
leftmost bracketed timestamp shape agree on every line. -/
lemma findMatch_eq_specScanTS (l : List Char) : findMatch l = specScanTS l := by
  induction l with
  | nil => rfl
  | cons c rest ih =>
    simp only [findMatch, specScanTS, matchAfterBracket_eq_bracketShapes, ih]

/-- C1 (amended): a line is emitted as a new chunk exactly when a
bracketed timestamp of the form `[D{1,2}:D{2}]` or `[D{1,2}:D{2}:D{2}]`
occurs anywhere in it (characters before the bracket need not be
whitespace and are discarded); the chunk's `time` is the leftmost such
timestamp without brackets and its `text` is the remainder of the line
after the bracket with leading whitespace removed and truncated at the
first carriage return — `.` does not match a LineTerminator — with
other trailing whitespace retained. -/
theorem c1_line_emission (line : List Char) :
    jsMatchLine line = specLineEmitAmended line := by
  unfold jsMatchLine specLineEmitAmended
  rw [findMatch_eq_specScanTS]

/-- C1 counterexample: the claim's anchored pattern (optional leading
whitespace only, and trimmed text) disagrees with the parser.  The line
`"x [00:05] Hi"` does not fit the claimed pattern yet is emitted as a
timestamped chunk, and on `"[00:05] Hi "` the parser keeps the trailing
space that the claim says is trimmed away. -/
theorem c1_counterexample :
    (specLineEmit ("x [00:05] Hi".toList) = none ∧
      parseChunks ("x [00:05] Hi".toList) = [⟨"00:05".toList, "Hi".toList⟩]) ∧
    (specLineEmit ("[00:05] Hi ".toList) = some ("00:05".toList, "Hi".toList) ∧
      jsMatchLine ("[00:05] Hi ".toList) = some ("00:05".toList, "Hi ".toList) ∧
      specLineEmit ("[00:05] Hi ".toList) ≠ jsMatchLine ("[00:05] Hi ".toList)) := by
  refine ⟨⟨?_, ?_⟩, ?_, ?_, ?_⟩ <;> decide

/-! Continuation lines (C2, C3). -/

lemma appendToLast_append_singleton (init : List TranscriptionChunk)
    (c : TranscriptionChunk) (s : List Char) :
    appendToLast (init ++ [c]) s = init ++ [⟨c.time, c.text ++ ' ' :: s⟩] := by
  induction init with
  | nil => rfl
  | cons a tl ih =>
    cases tl with
    | nil => rfl
    | cons b tl' =>
      simp only [List.cons_append] at ih ⊢
      rw [show appendToLast (a :: b :: (tl' ++ [c])) s =
        a :: appendToLast (b :: (tl' ++ [c])) s from rfl]
      rw [ih]

lemma dropWhile_all {p : Char → Bool} (l : List Char)
    (h : ∀ c ∈ List.dropWhile p l, p c = true) : List.dropWhile p l = [] := by
  induction l with
  | nil => rfl
  | cons a tl ih =>
    by_cases ha : p a = true
    · rw [List.dropWhile_cons_of_pos ha] at h ⊢
      exact ih h
    · rw [List.dropWhile_cons_of_neg (by simpa using ha)] at h
      exact absurd (h a (by simp)) ha

lemma trimJs_eq_nil_all_space {l : List Char} (h : trimJs l = []) :
    ∀ c ∈ l, isJsSpace c = true := by
  unfold trimJs at h
  rw [List.reverse_eq_nil_iff, List.dropWhile_eq_nil_iff] at h
  have h1 : List.dropWhile isJsSpace l = [] := by
    apply dropWhile_all
    intro c hc
    exact h c (by simpa using hc)
  rw [List.dropWhile_eq_nil_iff] at h1
  exact h1

lemma findMatch_all_space {l : List Char} (h : ∀ c ∈ l, isJsSpace c = true) :
    findMatch l = none := by
  induction l with
  | nil => rfl
  | cons c rest ih =>
    have hc := space_beq_lbracket (h c (by simp))
    simp only [findMatch, hc]
    exact ih fun x hx => h x (by simp [hx])

lemma processLine_blank (chunks : List TranscriptionChunk) {line : List Char}
    (h : trimJs line = []) : processLine chunks line = chunks := by
  have hm : jsMatchLine line = none := by
    unfold jsMatchLine
    rw [findMatch_all_space (trimJs_eq_nil_all_space h)]
  unfold processLine
  rw [hm, h]
  rfl

/-- C2: a non-matching, non-blank line processed while chunks already
exist appends a space plus the trimmed line to the last chunk's text,
leaving every earlier chunk and every chunk's time unchanged; parsing
`"[00:05] Hello\nworld"` gives the single merged chunk. -/
theorem c2_continuation_merge (init : List TranscriptionChunk)
    (lastChunk : TranscriptionChunk) (line : List Char) :
    (jsMatchLine line = none → trimJs line ≠ [] →
      processLine (init ++ [lastChunk]) line =
        init ++ [⟨lastChunk.time, lastChunk.text ++ ' ' :: trimJs line⟩]) ∧
    parseChunks ("[00:05] Hello\nworld".toList) =
      [⟨"00:05".toList, "Hello world".toList⟩] := by
  constructor
  · intro hm ht
    have hne : (trimJs line).isEmpty = false := by
      cases htr : trimJs line
      · exact absurd htr ht
      · rfl
    have hch : (init ++ [lastChunk]).isEmpty = false := by
      cases hi : init ++ [lastChunk]
      · exact absurd hi (by simp)
      · rfl
    unfold processLine
    rw [hm, hne, hch]
    simp [appendToLast_append_singleton]
  · decide

/-- C2 witness: the continuation step at a concrete state and line. -/
theorem c2_witness :
    processLine [⟨"00:05".toList, "Hello".toList⟩] ("world".toList) =
      [⟨"00:05".toList, "Hello".toList ++ ' ' :: trimJs ("world".toList)⟩] :=
  (c2_continuation_merge [] ⟨"00:05".toList, "Hello".toList⟩ ("world".toList)).1
    (by decide) (by decide)

/-- C3: a blank line changes nothing; a non-matching non-blank line
processed while no chunk exists yet creates the `"00:00"` fallback
chunk holding the trimmed line; parsing `"stray text\n[01:20] Next"`
gives the fallback chunk followed by the timestamped one. -/
theorem c3_first_line_fallback (chunks : List TranscriptionChunk)
    (line line2 : List Char) :
    (trimJs line2 = [] → processLine chunks line2 = chunks) ∧
    (jsMatchLine line = none → trimJs line ≠ [] →
      processLine [] line = [⟨"00:00".toList, trimJs line⟩]) ∧
    parseChunks ("stray text\n[01:20] Next".toList) =
      [⟨"00:00".toList, "stray text".toList⟩, ⟨"01:20".toList, "Next".toList⟩] := by
  refine ⟨fun h => processLine_blank chunks h, ?_, by decide⟩
  intro hm ht
  have hne : (trimJs line).isEmpty = false := by
    cases htr : trimJs line
    · exact absurd htr ht
    · rfl
  unfold processLine
  rw [hm, hne]
  rfl

/-- C3 witness: the fallback step at a concrete line, and a concrete
blank-line skip. -/
theorem c3_witness :
    processLine [] ("stray text".toList) =
      [⟨"00:00".toList, trimJs ("stray text".toList)⟩] ∧
    processLine [] ("   ".toList) = [] :=
  ⟨(c3_first_line_fallback [] ("stray text".toList) ("   ".toList)).2.1
      (by decide) (by decide),
    (c3_first_line_fallback [] ("stray text".toList) ("   ".toList)).1 (by decide)⟩

/-!
Playback seek mapping: the `onClick` handler of a timestamp button,
`const parts = chunk.time.split(':').map(Number); ...`.  JS `Number`
is embedded on the digit-string fragment that arises here: a string of
digits (the empty string included, which `Number` maps to `0`) parses
to its value, anything containing a non-digit stands for `NaN`,
modelled as `none`.
-/

def digitsToNat (s : List Char) : Nat :=
  s.foldl (fun n c => 10 * n + (c.toNat - '0'.toNat)) 0

def jsNum? (s : List Char) : Option Nat :=
  if s.all Char.isDigit then some (digitsToNat s) else none

/-- The seek handler's `timeInSeconds`: the 3-part and 2-part formulas,
`0` for any other number of parts (`timeInSeconds` keeps its initial
value); `none` stands for the `NaN` produced when a used part is not
numeric. -/
def seekSeconds (time : List Char) : Option Nat :=
  match splitOnChar ':' time with
  | [p0, p1, p2] =>
    match jsNum? p0, jsNum? p1, jsNum? p2 with
    | some a, some b, some c => some (a * 3600 + b * 60 + c)
    | _, _, _ => none
  | [p0, p1] =>
    match jsNum? p0, jsNum? p1 with
    | some a, some b => some (a * 60 + b)
    | _, _ => none
  | _ => some 0

/-- C4: splitting on `:`, three numeric parts give
`p0*3600 + p1*60 + p2` seconds, two numeric parts give `p0*60 + p1`,
any other number of parts falls back to 0 seconds; `"01:02:03"` maps
to 3723 and `"02:03"` to 123. -/
theorem c4_seek_mapping (time p0 p1 p2 : List Char) (a b c : Nat) :
    (splitOnChar ':' time = [p0, p1, p2] → jsNum? p0 = some a → jsNum? p1 = some b →
      jsNum? p2 = some c → seekSeconds time = some (a * 3600 + b * 60 + c)) ∧
    (splitOnChar ':' time = [p0, p1] → jsNum? p0 = some a → jsNum? p1 = some b →
      seekSeconds time = some (a * 60 + b)) ∧
    ((splitOnChar ':' time).length ≠ 2 → (splitOnChar ':' time).length ≠ 3 →
      seekSeconds time = some 0) ∧
    seekSeconds ("01:02:03".toList) = some 3723 ∧
    seekSeconds ("02:03".toList) = some 123 := by
  refine ⟨?_, ?_, ?_, by decide, by decide⟩
  · intro hs h0 h1 h2
    unfold seekSeconds
    rw [hs]
    dsimp only
    rw [h0, h1, h2]
  · intro hs h0 h1
    unfold seekSeconds
    rw [hs]
    dsimp only
    rw [h0, h1]
  · intro h2 h3
    unfold seekSeconds
    rcases hs : splitOnChar ':' time with _ | ⟨x, _ | ⟨y, _ | ⟨z, _ | ⟨w, tl⟩⟩⟩⟩
    · rfl
    · rfl
    · exact absurd (by rw [hs]; rfl) h2
    · exact absurd (by rw [hs]; rfl) h3
    · rfl

/-- C4 witness: the three-part branch at `"01:02:03"`. -/
theorem c4_witness :
    seekSeconds ("01:02:03".toList) = some (1 * 3600 + 2 * 60 + 3) :=
  (c4_seek_mapping ("01:02:03".toList) ("01".toList) ("02".toList) ("03".toList)
    1 2 3).1 (by decide) (by decide) (by decide) (by decide)

/-! C5: every chunk the parser emits carries a 2- or 3-part all-digit
time, so the seek mapping's fallback branch is unreachable on parser
output. -/

lemma findMatch_validTS {l ts rest : List Char}
    (h : findMatch l = some (ts, rest)) : validTS ts = true := by
  induction l with
  | nil => simp [findMatch] at h
  | cons c tl ih =>
    simp only [findMatch] at h
    by_cases hc : (c == '[') = true
    · rw [if_pos hc] at h
      cases hm : matchAfterBracket tl with
      | some r =>
        rw [hm] at h
        obtain ⟨ts', rest'⟩ := r
        simp only [Option.some_inj, Prod.mk.injEq] at h
        obtain ⟨h1, h2⟩ := h
        subst h1
        exact (matchAfterBracket_eq_some hm).2
      | none =>
        rw [hm] at h
        exact ih h
    · rw [if_neg hc] at h
      exact ih h

lemma jsMatchLine_validTS {line t s : List Char}
    (h : jsMatchLine line = some (t, s)) : validTS t = true := by
  unfold jsMatchLine at h
  cases hf : findMatch line with
  | none =>
    rw [hf] at h
    simp at h
  | some r =>
    obtain ⟨ts, rest⟩ := r
    rw [hf] at h
    simp only [Option.some_inj, Prod.mk.injEq] at h
    obtain ⟨rfl, rfl⟩ := h
    exact findMatch_validTS hf

lemma appendToLast_time : ∀ (chunks : List TranscriptionChunk) (s : List Char)
    (c : TranscriptionChunk), c ∈ appendToLast chunks s →
    ∃ c' ∈ chunks, c.time = c'.time := by
  intro chunks
  induction chunks with
  | nil =>
    intro s c hc
    simp [appendToLast] at hc
  | cons a tl ih =>
    intro s c hc
    cases tl with
    | nil =>
      simp only [appendToLast, List.mem_singleton] at hc
      subst hc
      exact ⟨a, by simp, rfl⟩
    | cons b tl' =>
      rw [show appendToLast (a :: b :: tl') s =
        a :: appendToLast (b :: tl') s from rfl] at hc
      rcases List.mem_cons.mp hc with heq | hc'
      · exact ⟨a, by simp, by rw [heq]⟩
      · obtain ⟨c', hc'', heq⟩ := ih s c hc'
        exact ⟨c', by simp [hc''], heq⟩

lemma processLine_validTS {acc : List TranscriptionChunk} {line : List Char}
    (hacc : ∀ c ∈ acc, validTS c.time = true) :
    ∀ c ∈ processLine acc line, validTS c.time = true := by
  intro d hd
  unfold processLine at hd
  cases hm : jsMatchLine line with
  | some p =>
    obtain ⟨t, s⟩ := p
    rw [hm] at hd
    rcases List.mem_append.mp hd with hd | hd
    · exact hacc d hd
    · rw [List.mem_singleton] at hd
      subst hd
      exact jsMatchLine_validTS hm
  | none =>
    rw [hm] at hd
    by_cases htr : (trimJs line).isEmpty = true
    · rw [if_pos htr] at hd
      exact hacc d hd
    · rw [if_neg htr] at hd
      by_cases hch : acc.isEmpty = true
      · rw [if_pos hch] at hd
        rcases List.mem_append.mp hd with hd | hd
        · exact hacc d hd
        · rw [List.mem_singleton] at hd
          subst hd
          show validTS ("00:00".toList) = true
          decide
      · rw [if_neg hch] at hd
        obtain ⟨c', hc', heq⟩ := appendToLast_time acc (trimJs line) d hd
        rw [heq]
        exact hacc c' hc'

lemma foldl_processLine_validTS (lines : List (List Char)) :
    ∀ acc : List TranscriptionChunk, (∀ c ∈ acc, validTS c.time = true) →
      ∀ c ∈ List.foldl processLine acc lines, validTS c.time = true := by
  induction lines with
  | nil =>
    intro acc hacc c hc
    simp only [List.foldl_nil] at hc
    exact hacc c hc
  | cons line rest ih =>
    intro acc hacc c hc
    simp only [List.foldl_cons] at hc
    exact ih (processLine acc line) (processLine_validTS hacc) c hc

lemma parseChunks_validTS (input : List Char) :
    ∀ c ∈ parseChunks input, validTS c.time = true := by
  intro c hc
  exact foldl_processLine_validTS (splitOnChar '\n' input) [] (by simp) c hc

lemma validTS_split_shape {t : List Char} (h : validTS t = true) :
    ((splitOnChar ':' t).length = 2 ∨ (splitOnChar ':' t).length = 3) ∧
    (∀ p ∈ splitOnChar ':' t, p ≠ [] ∧ p.all Char.isDigit = true) ∧
    (seekSeconds t).isSome = true := by
  rcases validTS_shapes h with
      ⟨a, b, c, rfl, ha, hb, hc⟩ |
      ⟨a, a2, b, c, rfl, ha, ha2, hb, hc⟩ |
      ⟨a, b, c, d, e, rfl, ha, hb, hc, hd, he⟩ |
      ⟨a, a2, b, c, d, e, rfl, ha, ha2, hb, hc, hd, he⟩
  · have hsplit : splitOnChar ':' [a, ':', b, c] = [[a], [b, c]] := by
      simp [splitOnChar, splitOnCharAux, digit_beq_colon ha, digit_beq_colon hb,
        digit_beq_colon hc]
    refine ⟨Or.inl (by rw [hsplit]; rfl), ?_, ?_⟩
    · rw [hsplit]
      intro p hp
      rcases List.mem_cons.mp hp with rfl | hp
      · exact ⟨by simp, by simp [ha]⟩
      · rw [List.mem_singleton] at hp
        subst hp
        exact ⟨by simp, by simp [hb, hc]⟩
    · unfold seekSeconds
      rw [hsplit]
      simp [jsNum?, ha, hb, hc]
  · have hsplit : splitOnChar ':' [a, a2, ':', b, c] = [[a, a2], [b, c]] := by
      simp [splitOnChar, splitOnCharAux, digit_beq_colon ha, digit_beq_colon ha2,
        digit_beq_colon hb, digit_beq_colon hc]
    refine ⟨Or.inl (by rw [hsplit]; rfl), ?_, ?_⟩
    · rw [hsplit]
      intro p hp
      rcases List.mem_cons.mp hp with rfl | hp
      · exact ⟨by simp, by simp [ha, ha2]⟩
      · rw [List.mem_singleton] at hp
        subst hp
        exact ⟨by simp, by simp [hb, hc]⟩
    · unfold seekSeconds
      rw [hsplit]
      simp [jsNum?, ha, ha2, hb, hc]
  · have hsplit : splitOnChar ':' [a, ':', b, c, ':', d, e] = [[a], [b, c], [d, e]] := by
      simp [splitOnChar, splitOnCharAux, digit_beq_colon ha, digit_beq_colon hb,
        digit_beq_colon hc, digit_beq_colon hd, digit_beq_colon he]
    refine ⟨Or.inr (by rw [hsplit]; rfl), ?_, ?_⟩
    · rw [hsplit]
      intro p hp
      rcases List.mem_cons.mp hp with rfl | hp
      · exact ⟨by simp, by simp [ha]⟩
      rcases List.mem_cons.mp hp with rfl | hp
      · exact ⟨by simp, by simp [hb, hc]⟩
      rw [List.mem_singleton] at hp
      subst hp
      exact ⟨by simp, by simp [hd, he]⟩
    · unfold seekSeconds
      rw [hsplit]
      simp [jsNum?, ha, hb, hc, hd, he]
  · have hsplit : splitOnChar ':' [a, a2, ':', b, c, ':', d, e] =
        [[a, a2], [b, c], [d, e]] := by
      simp [splitOnChar, splitOnCharAux, digit_beq_colon ha, digit_beq_colon ha2,
        digit_beq_colon hb, digit_beq_colon hc, digit_beq_colon hd, digit_beq_colon he]
    refine ⟨Or.inr (by rw [hsplit]; rfl), ?_, ?_⟩
    · rw [hsplit]
      intro p hp
      rcases List.mem_cons.mp hp with rfl | hp
      · exact ⟨by simp, by simp [ha, ha2]⟩
      rcases List.mem_cons.mp hp with rfl | hp
      · exact ⟨by simp, by simp [hb, hc]⟩
      rw [List.mem_singleton] at hp
      subst hp
      exact ⟨by simp, by simp [hd, he]⟩
    · unfold seekSeconds
      rw [hsplit]
      simp [jsNum?, ha, ha2, hb, hc, hd, he]

/-- C5: every chunk the parser produces has a `time` that splits on
`:` into exactly 2 or 3 parts, each a nonempty string of digits, and
the seek mapping evaluates it through the 2- or 3-part formula (never
the fallback, never `NaN`). -/
theorem c5_parser_time_shape (input : List Char) (c : TranscriptionChunk)
    (hc : c ∈ parseChunks input) :
    ((splitOnChar ':' c.time).length = 2 ∨ (splitOnChar ':' c.time).length = 3) ∧
    (∀ p ∈ splitOnChar ':' c.time, p ≠ [] ∧ p.all Char.isDigit = true) ∧
    (seekSeconds c.time).isSome = true :=
  validTS_split_shape (parseChunks_validTS input c hc)

/-- C5 witness: the invariant at a concrete parsed chunk. -/
theorem c5_witness :
    ((splitOnChar ':' (TranscriptionChunk.mk ("00:05".toList) ("Hi".toList)).time).length = 2 ∨
      (splitOnChar ':' (TranscriptionChunk.mk ("00:05".toList) ("Hi".toList)).time).length = 3) ∧
    (∀ p ∈ splitOnChar ':' (TranscriptionChunk.mk ("00:05".toList) ("Hi".toList)).time,
      p ≠ [] ∧ p.all Char.isDigit = true) ∧
    (seekSeconds (TranscriptionChunk.mk ("00:05".toList) ("Hi".toList)).time).isSome = true :=
  c5_parser_time_shape ("[00:05] Hi".toList) ⟨"00:05".toList, "Hi".toList⟩ (by decide)

/-!
Search filter: `transcription.filter(chunk =>
chunk.text.toLowerCase().includes(searchQuery.toLowerCase()))`.
`toLowerCase` is embedded on its ASCII fragment via `Char.toLower`;
`String.prototype.includes` is the substring test `containsSub`.
-/

def jsToLower (s : List Char) : List Char :=
  s.map Char.toLower

def isPrefixList : List Char → List Char → Bool
  | [], _ => true
  | _ :: _, [] => false
  | a :: as, b :: bs => a == b && isPrefixList as bs

/-- `hay.includes(needle)`: the needle occurs as a contiguous
substring. -/
def containsSub (needle : List Char) : List Char → Bool
  | [] => isPrefixList needle []
  | c :: rest => isPrefixList needle (c :: rest) || containsSub needle rest

/-- `filteredTranscription` from the component body. -/
def filteredTranscription (chunks : List TranscriptionChunk) (q : List Char) :
    List TranscriptionChunk :=
  chunks.filter fun chunk => containsSub (jsToLower q) (jsToLower chunk.text)

lemma isPrefixList_iff (n : List Char) : ∀ h : List Char,
    isPrefixList n h = true ↔ ∃ post, h = n ++ post := by
  induction n with
  | nil =>
    intro h
    constructor
    · intro _
      exact ⟨h, rfl⟩
    · intro _
      rfl
  | cons a as ih =>
    intro h
    cases h with
    | nil =>
      simp [isPrefixList]
    | cons b bs =>
      rw [show isPrefixList (a :: as) (b :: bs) =
        (a == b && isPrefixList as bs) from rfl]
      rw [Bool.and_eq_true, beq_iff_eq, ih bs]
      constructor
      · rintro ⟨rfl, post, rfl⟩
        exact ⟨post, rfl⟩
      · rintro ⟨post, heq⟩
        rw [List.cons_append] at heq
        injection heq with h1 h2
        exact ⟨h1.symm, post, h2⟩

lemma containsSub_iff (n : List Char) : ∀ h : List Char,
    containsSub n h = true ↔ ∃ pre post, h = pre ++ n ++ post := by
  intro h
  induction h with
  | nil =>
    rw [show containsSub n [] = isPrefixList n [] from rfl, isPrefixList_iff]
    constructor
    · rintro ⟨post, hp⟩
      exact ⟨[], post, by simpa using hp⟩
    · rintro ⟨pre, post, hp⟩
      obtain ⟨hpn, hpost⟩ := List.append_eq_nil.mp hp.symm
      obtain ⟨hpre, hn⟩ := List.append_eq_nil.mp hpn
      refine ⟨[], ?_⟩
      rw [hn]
      rfl
  | cons c rest ih =>
    rw [show containsSub n (c :: rest) =
      (isPrefixList n (c :: rest) || containsSub n rest) from rfl]
    rw [Bool.or_eq_true, isPrefixList_iff, ih]
    constructor
    · rintro (⟨post, hp⟩ | ⟨pre, post, hp⟩)
      · exact ⟨[], post, by simpa using hp⟩
      · refine ⟨c :: pre, post, ?_⟩
        rw [hp]
        rfl
    · rintro ⟨pre, post, hp⟩
      cases pre with
      | nil =>
        exact Or.inl ⟨post, by simpa using hp⟩
      | cons p ps =>
        rw [List.cons_append, List.cons_append] at hp
        injection hp with h1 h2
        exact Or.inr ⟨ps, post, by rw [h2]⟩

lemma containsSub_nil (h : List Char) : containsSub [] h = true := by
  cases h with
  | nil => rfl
  | cons c rest => rfl

lemma filtered_empty_query (chunks : List TranscriptionChunk) :
    filteredTranscription chunks [] = chunks := by
  unfold filteredTranscription
  rw [List.filter_eq_self]
  intro c _
  exact containsSub_nil (jsToLower c.text)

/-- C6: the search filter returns exactly the subsequence of chunks
whose text contains the query as a case-insensitive substring, in
original order; the empty query returns all chunks unchanged; query
`"he"` over texts `"Hello"`, `"World"` keeps only the first. -/
theorem c6_search_filter (chunks : List TranscriptionChunk) (q : List Char) :
    List.Sublist (filteredTranscription chunks q) chunks ∧
    (∀ c, c ∈ filteredTranscription chunks q ↔
      c ∈ chunks ∧ ∃ pre post, jsToLower c.text = pre ++ jsToLower q ++ post) ∧
    filteredTranscription chunks [] = chunks ∧
    filteredTranscription
        [⟨"00:00".toList, "Hello".toList⟩, ⟨"00:07".toList, "World".toList⟩]
        ("he".toList) =
      [⟨"00:00".toList, "Hello".toList⟩] := by
  refine ⟨List.filter_sublist _, ?_, filtered_empty_query chunks, by decide⟩
  intro c
  unfold filteredTranscription
  rw [List.mem_filter]
  rw [containsSub_iff]

/-!
The `/api/proxy-audio` handler (identical logic in the express route
and the serverless handler).  `if (!audioUrl)` is a JS-falsy test, so
both an absent `url` parameter and an empty string are rejected with
400.  `response.ok` is status 200–299.  On success `res.send(buffer)`
answers with the default status 200 and the upstream content-type when
the upstream provided one.
-/

inductive ProxyBody where
  | jsonError (msg : List Char)
  | bytes (data : List Nat)
deriving DecidableEq, Repr

structure ProxyResponse where
  status : Nat
  contentType : Option (List Char)
  body : ProxyBody
deriving DecidableEq, Repr

/-- What `fetch(audioUrl)` (together with `response.arrayBuffer()`)
did: threw, or completed with a status, an optional content-type and
bytes. -/
inductive FetchOutcome where
  | thrown
  | response (status : Nat) (contentType : Option (List Char)) (body : List Nat)
deriving DecidableEq, Repr

def proxyAudioHandler (url : Option (List Char)) (outcome : FetchOutcome) :
    ProxyResponse :=
  match url with
  | none => ⟨400, none, .jsonError ("URL is required".toList)⟩
  | some u =>
    if u.isEmpty then ⟨400, none, .jsonError ("URL is required".toList)⟩
    else
      match outcome with
      | .thrown => ⟨500, none, .jsonError ("Failed to fetch audio".toList)⟩
      | .response st ct bodyBytes =>
        if 200 ≤ st ∧ st ≤ 299 then ⟨200, ct, .bytes bodyBytes⟩
        else ⟨st, none, .jsonError ("Failed to fetch audio".toList)⟩

/-- C7: missing `url` gives 400 with `{error:"URL is required"}`; a
completed non-ok upstream fetch echoes the upstream status with a JSON
error body; a thrown exception gives 500 with a JSON error body;
otherwise the fetched bytes are returned with the upstream
content-type. -/
theorem c7_proxy_responses (u : List Char) (outcome : FetchOutcome)
    (st : Nat) (ct : Option (List Char)) (bodyBytes : List Nat) :
    proxyAudioHandler none outcome =
      ⟨400, none, .jsonError ("URL is required".toList)⟩ ∧
    (u ≠ [] → ¬(200 ≤ st ∧ st ≤ 299) →
      proxyAudioHandler (some u) (.response st ct bodyBytes) =
        ⟨st, none, .jsonError ("Failed to fetch audio".toList)⟩) ∧
    (u ≠ [] →
      proxyAudioHandler (some u) .thrown =
        ⟨500, none, .jsonError ("Failed to fetch audio".toList)⟩) ∧
    (u ≠ [] → 200 ≤ st → st ≤ 299 →
      proxyAudioHandler (some u) (.response st ct bodyBytes) =
        ⟨200, ct, .bytes bodyBytes⟩) := by
  refine ⟨rfl, ?_, ?_, ?_⟩
  · intro h hok
    cases u with
    | nil => exact absurd rfl h
    | cons hc tc =>
      show (if 200 ≤ st ∧ st ≤ 299 then
          (⟨200, ct, .bytes bodyBytes⟩ : ProxyResponse)
        else ⟨st, none, .jsonError ("Failed to fetch audio".toList)⟩) = _
      rw [if_neg hok]
  · intro h
    cases u with
    | nil => exact absurd rfl h
    | cons hc tc => rfl
  · intro h h1 h2
    cases u with
    | nil => exact absurd rfl h
    | cons hc tc =>
      show (if 200 ≤ st ∧ st ≤ 299 then
          (⟨200, ct, .bytes bodyBytes⟩ : ProxyResponse)
        else ⟨st, none, .jsonError ("Failed to fetch audio".toList)⟩) = _
      rw [if_pos ⟨h1, h2⟩]

/-- C7 witness: the non-ok branch at status 404 and the ok branch at
status 200 for a concrete URL. -/
theorem c7_witness :
    proxyAudioHandler (some ("u".toList)) (.response 404 none []) =
      ⟨404, none, .jsonError ("Failed to fetch audio".toList)⟩ ∧
    proxyAudioHandler (some ("u".toList))
        (.response 200 (some ("audio/mpeg".toList)) [1, 2]) =
      ⟨200, some ("audio/mpeg".toList), .bytes [1, 2]⟩ :=
  ⟨(c7_proxy_responses ("u".toList) (.response 404 none []) 404 none []).2.1
      (by decide) (by decide),
    (c7_proxy_responses ("u".toList) .thrown 200 (some ("audio/mpeg".toList))
      [1, 2]).2.2.2 (by decide) (by decide) (by decide)⟩

/-!
The simulated transcription progress counter of `handleTranscribe`:
`setTranscriptionProgress(prev => { if (prev >= 90) return prev; const
increment = Math.max(0.5, (90 - prev) / 20); return prev + increment; })`
on a fixed 1-second interval, starting from 0.  The arithmetic is
modelled exactly over `ℚ`.
-/

def progressStep (p : ℚ) : ℚ :=
  if p ≥ 90 then p else p + max (1 / 2 : ℚ) ((90 - p) / 20)

lemma progressStep_le {p : ℚ} (hp : p ≤ 181 / 2) : progressStep p ≤ 181 / 2 := by
  unfold progressStep
  by_cases h90 : p ≥ 90
  · rw [if_pos h90]
    exact hp
  · rw [if_neg h90]
    push_neg at h90
    rcases le_total ((90 - p) / 20) (1 / 2 : ℚ) with hle | hle
    · rw [max_eq_left hle]
      linarith
    · rw [max_eq_right hle]
      linarith

/-- C8: starting from 0, every number of iterations of the simulated
progress step stays strictly below 100 (at most 90.5, in fact): the
interval callback alone can never show a finished bar; only the
explicit `setTranscriptionProgress(100)` after the real response does. -/
theorem c8_progress_below_100 (n : ℕ) : progressStep^[n] (0 : ℚ) < 100 := by
  have bound : ∀ m : ℕ, progressStep^[m] (0 : ℚ) ≤ 181 / 2 := by
    intro m
    induction m with
    | zero => norm_num
    | succ k ih =>
      rw [Function.iterate_succ_apply']
      exact progressStep_le ih
  have := bound n
  linarith

/-!
The React component state and the three user actions' synchronous
guards.  The eleven `useState` fields form `AppState`; a handler is a
function from the state (plus the outcome of its asynchronous work) to
the new state together with the list of `alert` messages it shows.
For `handleTranscribe` and `handleConvert` only the synchronous guard
is modelled concretely; the asynchronous continuation is an opaque
`run` applied to the state after the initial busy-flag updates.
-/

inductive TargetFormat where
  | mp3
  | m4a
  | aac
deriving DecidableEq, Repr

structure AppState where
  audioFile : Option (List Nat)
  audioUrl : List Char
  inputUrl : List Char
  isTranscribing : Bool
  transcriptionProgress : ℚ
  transcription : List TranscriptionChunk
  searchQuery : List Char
  isConverting : Bool
  conversionProgress : ℚ
  convertedUrl : Option (List Char)
  targetFormat : TargetFormat
deriving DecidableEq

/-- `handleFileUpload`: `e.target.files?.[0]` present or not;
`objectUrl` stands for `URL.createObjectURL(file)`. -/
def handleFileUpload (s : AppState) (file : Option (List Nat))
    (objectUrl : List Char) : AppState :=
  match file with
  | none => s
  | some f =>
    { s with
      audioFile := some f
      audioUrl := objectUrl
      transcription := []
      convertedUrl := none }

/-- `handleUrlSubmit`: the `if (!inputUrl) return;` guard, then the
proxy fetch which either yields a blob or fails (any throw, including
a non-ok response, lands in the `catch` which alerts). -/
def handleUrlSubmit (s : AppState) (fetched : Option (List Nat))
    (objectUrl : List Char) : AppState × List (List Char) :=
  if s.inputUrl.isEmpty then (s, [])
  else
    match fetched with
    | some blob =>
      ({ s with
        audioFile := some blob
        audioUrl := objectUrl
        transcription := []
        convertedUrl := none }, [])
    | none =>
      (s, ["Failed to load audio from URL. Please check the URL and try again.".toList])

/-- `handleTranscribe`: the `if (!audioFile) return;` guard, then the
synchronous busy-flag updates before the asynchronous work `run`. -/
def handleTranscribe (s : AppState)
    (run : AppState → AppState × List (List Char)) : AppState × List (List Char) :=
  match s.audioFile with
  | none => (s, [])
  | some _ =>
    run { s with
      isTranscribing := true
      transcriptionProgress := 0 }

/-- `handleConvert`: the `if (!audioFile) return;` guard, then the
synchronous busy-flag updates before the asynchronous work `run`. -/
def handleConvert (s : AppState)
    (run : AppState → AppState × List (List Char)) : AppState × List (List Char) :=
  match s.audioFile with
  | none => (s, [])
  | some _ =>
    run { s with
      isConverting := true
      conversionProgress := 0 }

/-- An idle state with no audio loaded and no URL typed. -/
def guardDemoState : AppState :=
  { audioFile := none
    audioUrl := []
    inputUrl := []
    isTranscribing := false
    transcriptionProgress := 0
    transcription := []
    searchQuery := []
    isConverting := false
    conversionProgress := 0
    convertedUrl := none
    targetFormat := .mp3 }

/-- C9 counterexample: with the required input missing, each of the
three actions returns with the state unchanged but shows NO
user-visible message — the alert list is empty, even under a
continuation that would alert if it were reached. -/
theorem c9_counterexample :
    (handleUrlSubmit guardDemoState none []).1 = guardDemoState ∧
    (handleUrlSubmit guardDemoState none []).2 = [] ∧
    (handleTranscribe guardDemoState (fun st => (st, ["x".toList]))).1 = guardDemoState ∧
    (handleTranscribe guardDemoState (fun st => (st, ["x".toList]))).2 = [] ∧
    (handleConvert guardDemoState (fun st => (st, ["x".toList]))).1 = guardDemoState ∧
    (handleConvert guardDemoState (fun st => (st, ["x".toList]))).2 = [] :=
  ⟨rfl, rfl, rfl, rfl, rfl, rfl⟩

/-- C9 (amended): with its required input missing (empty URL string,
or no audio file loaded), each action returns synchronously with every
state field unchanged and with no user-visible message (the guard is a
bare `return`; no alert is shown). -/
theorem c9_missing_input_guards (s : AppState)
    (run : AppState → AppState × List (List Char))
    (fetched : Option (List Nat)) (objectUrl : List Char) :
    (s.inputUrl = [] → handleUrlSubmit s fetched objectUrl = (s, [])) ∧
    (s.audioFile = none → handleTranscribe s run = (s, [])) ∧
    (s.audioFile = none → handleConvert s run = (s, [])) := by
  refine ⟨?_, ?_, ?_⟩
  · intro h
    unfold handleUrlSubmit
    rw [h]
    rfl
  · intro h
    unfold handleTranscribe
    rw [h]
  · intro h
    unfold handleConvert
    rw [h]

/-- C9 witness: the guards at the concrete idle state. -/
theorem c9_witness :
    handleUrlSubmit guardDemoState (some []) ("u".toList) = (guardDemoState, []) ∧
    handleTranscribe guardDemoState (fun st => (st, [])) = (guardDemoState, []) ∧
    handleConvert guardDemoState (fun st => (st, [])) = (guardDemoState, []) :=
  ⟨(c9_missing_input_guards guardDemoState (fun st => (st, [])) (some [])
      ("u".toList)).1 rfl,
    (c9_missing_input_guards guardDemoState (fun st => (st, [])) (some [])
      ("u".toList)).2.1 rfl,
    (c9_missing_input_guards guardDemoState (fun st => (st, [])) (some [])
      ("u".toList)).2.2 rfl⟩

/-- A state with a transcript, a converted file, a search query and a
typed URL, about to load a new source. -/
def loadedDemoState : AppState :=
  { audioFile := some [7]
    audioUrl := "old-url".toList
    inputUrl := "u".toList
    isTranscribing := false
    transcriptionProgress := 100
    transcription := [⟨"00:00".toList, "old".toList⟩]
    searchQuery := "q".toList
    isConverting := false
    conversionProgress := 0
    convertedUrl := some ("blob".toList)
    targetFormat := .aac }

/-- C10: successfully loading a new audio source — from the file
picker or from a URL via the proxy — resets the transcription chunk
list to `[]` and clears the converted-output URL to `none`, while the
search query and the selected target format keep their values. -/
theorem c10_new_source_resets (s : AppState) (f blob : List Nat)
    (objectUrl : List Char) :
    ((handleFileUpload s (some f) objectUrl).transcription = [] ∧
      (handleFileUpload s (some f) objectUrl).convertedUrl = none ∧
      (handleFileUpload s (some f) objectUrl).searchQuery = s.searchQuery ∧
      (handleFileUpload s (some f) objectUrl).targetFormat = s.targetFormat) ∧
    (s.inputUrl ≠ [] →
      ((handleUrlSubmit s (some blob) objectUrl).1.transcription = [] ∧
        (handleUrlSubmit s (some blob) objectUrl).1.convertedUrl = none ∧
        (handleUrlSubmit s (some blob) objectUrl).1.searchQuery = s.searchQuery ∧
        (handleUrlSubmit s (some blob) objectUrl).1.targetFormat = s.targetFormat)) := by
  constructor
  · exact ⟨rfl, rfl, rfl, rfl⟩
  · intro h
    have hne : s.inputUrl.isEmpty = false := by
      cases hi : s.inputUrl
      · exact absurd hi h
      · rfl
    unfold handleUrlSubmit
    rw [hne]
    exact ⟨rfl, rfl, rfl, rfl⟩

/-- C10 witness: loading from a URL at a concrete populated state. -/
theorem c10_witness :
    (handleUrlSubmit loadedDemoState (some []) ("obj".toList)).1.transcription = [] ∧
    (handleUrlSubmit loadedDemoState (some []) ("obj".toList)).1.convertedUrl = none ∧
    (handleUrlSubmit loadedDemoState (some []) ("obj".toList)).1.searchQuery =
      loadedDemoState.searchQuery ∧
    (handleUrlSubmit loadedDemoState (some []) ("obj".toList)).1.targetFormat =
      loadedDemoState.targetFormat :=
  (c10_new_source_resets loadedDemoState [] [] ("obj".toList)).2 (by decide)

end AudioTranscriber
